import Mathlib

/-!
# VideoPlayer.jsx: a shallow embedding of the component and its handlers

The React component `VideoPlayer` (src/src/VideoPlayer.jsx) is embedded as a state
machine.  One transition is one JavaScript task: an event handler, or the
continuation of the async function `handleFileChange` after one of its two
`await`s.  JavaScript runs such a task to completion before the next one, and
React re-renders in between, so a handler always closes over the state values
of the state it starts in; the continuation of an async function keeps the
values of the render in which the function was called.

Every handler returns the new state together with the commands it issued to
the two playback surfaces (the video element and the wavesurfer instance).

Numbers: a JavaScript number is an IEEE-754 binary64 value.  Finite values are
carried as rationals, `Infinity` and `NaN` are separate values, and every
division and product is rounded to the nearest binary64 value, ties to even,
with subnormals and overflow.  The sign of zero is not represented; the zero
divisors of this program are durations, which are never negative zero.
-/

namespace VideoPlayer

/-! ## Numbers -/

/-- A JavaScript number: a finite binary64 value carried as a rational,
`Infinity` or `-Infinity`, or `NaN`. -/
inductive Num where
  | finite (value : ℚ)
  | infinity (negative : Bool)
  | nan
  deriving DecidableEq, Repr

/-- The largest finite binary64 value, `Number.MAX_VALUE`. -/
def maxDouble : ℚ := (2 ^ 53 - 1) * 2 ^ 971

/-- The exponent of the unit in the last place of the binary64 values around
`q`: 52 below the exponent of `q`, and never below that of the subnormals. -/
def ulpExponent (q : ℚ) : ℤ := max (Int.log 2 |q| - 52) (-1074)

/-- The integer nearest to `x`, the even one of the two when `x` lies half way. -/
def roundHalfEven (x : ℚ) : ℤ :=
  if x - ⌊x⌋ < 1 / 2 then ⌊x⌋
  else if 1 / 2 < x - ⌊x⌋ then ⌊x⌋ + 1
  else if ⌊x⌋ % 2 = 0 then ⌊x⌋ else ⌊x⌋ + 1

/-- The binary64 value nearest to `q`, with an unbounded exponent range above. -/
def roundDouble (q : ℚ) : ℚ :=
  roundHalfEven (q / 2 ^ ulpExponent q) * 2 ^ ulpExponent q

/-- The result of an arithmetic operation whose exact value is `q`: the nearest
binary64 value, or an infinity when that exceeds the largest finite one. -/
def Num.round (q : ℚ) : Num :=
  if |roundDouble q| ≤ maxDouble then .finite (roundDouble q) else .infinity (decide (q < 0))

/-- JavaScript `a / b`. -/
def Num.div : Num → Num → Num
  | .finite x, .finite y =>
    if y = 0 then (if x = 0 then .nan else .infinity (decide (x < 0)))
    else Num.round (x / y)
  | .finite _, .infinity _ => .finite 0
  | .infinity n, .finite y => .infinity (n != decide (y < 0))
  | _, _ => .nan

/-- JavaScript `a * b`. -/
def Num.mul : Num → Num → Num
  | .finite x, .finite y => Num.round (x * y)
  | .finite x, .infinity n => if x = 0 then .nan else .infinity (n != decide (x < 0))
  | .infinity n, .finite y => if y = 0 then .nan else .infinity (n != decide (y < 0))
  | .infinity m, .infinity n => .infinity (m != n)
  | _, _ => .nan

/-! ## Files and the browser services the component calls -/

/-- What `audioContext.decodeAudioData` does with the bytes of a file: it calls
the success callback with a buffer of `numberOfChannels` channels, or the
failure callback. -/
inductive DecodeResult where
  | decoded (numberOfChannels : Nat)
  | failed
  deriving DecidableEq, Repr

/-- What a detached `video` element with `preload = metadata` does with a file:
it fires `loadedmetadata` (and then reports these values) or `error`. -/
inductive MetadataResult where
  | loaded (duration : Num) (videoWidth videoHeight : Nat)
  | error
  deriving DecidableEq, Repr

/-- A file picked by the user, described by what the browser reports for it.
`readable = false` is a file on which `FileReader.readAsArrayBuffer` fails:
`reader.onload` never runs. -/
structure File where
  name : Nat
  readable : Bool
  decodeAudioData : DecodeResult
  loadMetadata : MetadataResult
  deriving DecidableEq, Repr

/-- A settled promise. -/
inductive Settled (α ε : Type) where
  | resolved (value : α)
  | rejected (reason : ε)
  deriving DecidableEq, Repr

/-- The object `getVideoMetadata` resolves with (lines 91-95). -/
structure VideoMetadata where
  duration : Num
  videoWidth : Nat
  videoHeight : Nat
  deriving DecidableEq, Repr

/-- The promise of `checkVideoAudio` (lines 66-83): `resolve(numberOfChannels > 0)`
from the success callback, `reject(false)` from the failure callback.  The
promise settles only from `reader.onload`; when the read fails it stays pending
for ever (`none`). -/
def checkVideoAudio (file : File) : Option (Settled Bool Bool) :=
  if file.readable then
    match file.decodeAudioData with
    | .decoded numberOfChannels => some (.resolved (decide (numberOfChannels > 0)))
    | .failed => some (.rejected false)
  else none

/-- The promise of `getVideoMetadata` (lines 85-104): resolved from
`onloadedmetadata` with the three values of the detached element, rejected with
`null` from `onerror`. -/
def getVideoMetadata (file : File) : Settled VideoMetadata Unit :=
  match file.loadMetadata with
  | .loaded duration videoWidth videoHeight => .resolved ⟨duration, videoWidth, videoHeight⟩
  | .error => .rejected ()

/-! ## The two playback surfaces -/

/-- The `video` element held by `videoRef`.  `seekedListeners` holds one entry
per registered `seeked` listener: the `waveformInstance` its closure captured
(the id of a wavesurfer instance, or `none` for `null`). -/
structure VideoElement where
  src : Option File
  currentTime : ℚ
  duration : Num
  paused : Bool
  loadedmetadataListeners : Nat
  seekedListeners : List (Option Nat)
  deriving DecidableEq, Repr

/-- A wavesurfer instance.  `seekHandlers` counts the handlers the component
registered on it with `on` for the `seek` notification. -/
structure WaveSurfer where
  id : Nat
  url : Option File
  playing : Bool
  progress : Num
  seekHandlers : Nat
  deriving DecidableEq, Repr

/-- Messages written with `console.error`. -/
inductive LogMessage where
  | errorCheckingVideoAudio
  | errorGettingVideoMetadata
  deriving DecidableEq, Repr

/-- Commands a handler issues to the surfaces and the console. -/
inductive Command where
  | videoSetSrc (file : File)
  | videoPlay
  | videoPause
  | videoSetCurrentTime (time : ℚ)
  | waveformDestroy (inst : Nat)
  | waveformCreate (inst : Nat)
  | waveformLoad (inst : Nat) (file : File)
  | waveformPlay (inst : Nat)
  | waveformPause (inst : Nat)
  | waveformSeekTo (inst : Nat) (fraction : Num)
  | consoleError (msg : LogMessage)
  deriving DecidableEq, Repr

/-- Assignment `videoElement.src = videoURL`: the element starts loading the new
resource, so its position is reset and its duration is `NaN` until the
metadata has loaded. -/
def VideoElement.setSrc (v : VideoElement) (file : File) : VideoElement :=
  { v with src := some file, currentTime := 0, duration := .nan, paused := true }

/-- Call `wavesurfer.create(...)`: a fresh instance with no handlers. -/
def WaveSurfer.create (id : Nat) : WaveSurfer :=
  { id := id, url := none, playing := false, progress := .finite 0, seekHandlers := 0 }

/-! ## Component state -/

/-- Where an invocation of the async function `handleFileChange` stands. -/
inductive Stage where
  | awaitingCheckVideoAudio
  | awaitingGetVideoMetadata
  | done
  deriving DecidableEq, Repr

/-- One invocation of `handleFileChange`: the picked file, the `hasAudio`
constant of the render whose closure is running (line 10, read at line 42), and
the `await` at which it is suspended. -/
structure Run where
  file : File
  hasAudio : Bool
  stage : Stage
  deriving DecidableEq, Repr

/-- The state of the component: the refs (lines 6-7), the five `useState` cells
(lines 8-12), the invocations of `handleFileChange` started so far, and the
number of wavesurfer instances created so far (the next fresh id).  The `video`
element is rendered unconditionally, so `videoRef.current` is the element in
every handler. -/
structure State where
  video : VideoElement
  waveformRef : Option WaveSurfer
  videoDuration : Num
  isPlaying : Bool
  hasAudio : Bool
  videoMetadata : Option VideoMetadata
  uploadEnabled : Bool
  runs : List Run
  instances : Nat
  deriving DecidableEq, Repr

/-- The state of the first render (lines 6-12). -/
def initialState : State :=
  { video := { src := none, currentTime := 0, duration := .nan, paused := true,
               loadedmetadataListeners := 0, seekedListeners := [] }
    waveformRef := none
    videoDuration := .finite 0
    isPlaying := false
    hasAudio := true
    videoMetadata := none
    uploadEnabled := true
    runs := []
    instances := 0 }

/-! ## Handlers -/

/-- The fraction computed by the `seeked` listener (line 130):
`videoElement.currentTime / videoElement.duration`. -/
def seekedFraction (currentTime : ℚ) (duration : Num) : Num :=
  Num.div (.finite currentTime) duration

/-- The time computed by the `seek` handler (line 134):
`progress * videoElement.duration`. -/
def seekTime (progress : ℚ) (duration : Num) : Num :=
  Num.mul (.finite progress) duration

/-- The conversion of a time to a fraction in the words of the specification:
`t / duration`, over the rationals. -/
def exactFraction (t duration : ℚ) : ℚ := t / duration

/-- The conversion of a fraction to a time in the words of the specification:
`p * duration`, over the rationals. -/
def exactTime (p duration : ℚ) : ℚ := p * duration

/-- The `seeked` listener (lines 129-131) whose closure captured
`waveformInstance`: `waveformInstance && waveformInstance.seekTo(...)`. -/
def onSeeked (waveformInstance : Option Nat) (s : State) : State × List Command :=
  match waveformInstance with
  | none => (s, [])
  | some inst =>
    let fraction := seekedFraction s.video.currentTime s.video.duration
    ({ s with waveformRef := s.waveformRef.map
                (fun w => if w.id = inst then { w with progress := fraction } else w) },
     [Command.waveformSeekTo inst fraction])

/-- The `seek` handler (lines 133-135): `videoElement.currentTime = progress *
videoElement.duration`.  Assigning a non-finite value throws and leaves the
element as it was. -/
def onSeek (progress : ℚ) (s : State) : State × List Command :=
  match seekTime progress s.video.duration with
  | .finite time =>
    ({ s with video := { s.video with currentTime := time } }, [Command.videoSetCurrentTime time])
  | _ => (s, [])

/-- The effect of lines 120-137.  Its dependency list is the ref object itself,
which is the same object in every render, so React runs it once, after the first
render.  It reads `waveformRef.current` into `waveformInstance` at that moment. -/
def mountEffect (s : State) : State :=
  let waveformInstance := s.waveformRef.map WaveSurfer.id
  { s with
    video := { s.video with
               loadedmetadataListeners := s.video.loadedmetadataListeners + 1
               seekedListeners := s.video.seekedListeners ++ [waveformInstance] }
    waveformRef := s.waveformRef.map (fun w => { w with seekHandlers := w.seekHandlers + 1 }) }

/-- The component after its first render and its effect. -/
def mounted : State := mountEffect initialState

/-- The function `initializeWaveform` (lines 48-64). -/
def initializeWaveform (s : State) (file : File) : State × List Command :=
  let w := WaveSurfer.create s.instances
  ({ s with waveformRef := some { w with url := some file }, instances := s.instances + 1 },
   (s.waveformRef.map (fun old => Command.waveformDestroy old.id)).toList ++
     [Command.waveformCreate w.id, Command.waveformLoad w.id file])

/-- The function `handlePlayPause` (lines 106-118). -/
def handlePlayPause (s : State) : State × List Command :=
  if s.isPlaying then
    ({ s with
       video := { s.video with paused := true }
       waveformRef := s.waveformRef.map (fun w => { w with playing := false })
       isPlaying := !s.isPlaying },
     Command.videoPause :: (s.waveformRef.map (fun w => Command.waveformPause w.id)).toList)
  else
    ({ s with
       video := { s.video with paused := false }
       waveformRef := s.waveformRef.map (fun w => { w with playing := true })
       isPlaying := !s.isPlaying },
     Command.videoPlay :: (s.waveformRef.map (fun w => Command.waveformPlay w.id)).toList)

/-- The `disabled` attribute of the play/pause button (line 167). -/
def playPauseButtonDisabled (s : State) : Bool := !s.hasAudio

/-- A click on the play/pause button (lines 164-170): a disabled button
dispatches no click, otherwise `onClick` runs `handlePlayPause`. -/
def clickPlayPause (s : State) : State × List Command :=
  if playPauseButtonDisabled s then (s, []) else handlePlayPause s

/-- The function `handleFileChange` up to its first `await` (lines 15-25). -/
def handleFileChange (s : State) (file : Option File) : State × List Command :=
  match file with
  | none => (s, [])
  | some f =>
    ({ s with
       video := s.video.setSrc f
       isPlaying := false
       runs := s.runs ++ [{ file := f, hasAudio := s.hasAudio, stage := .awaitingCheckVideoAudio }] },
     [Command.videoSetSrc f])

/-- The function `handleFileChange` from the settlement of `checkVideoAudio` to
the second `await` (lines 25-35), for invocation `i`. -/
def resumeAfterCheckVideoAudio (s : State) (i : Nat) (r : Run)
    (outcome : Settled Bool Bool) : State × List Command :=
  let runs := s.runs.set i { r with stage := .awaitingGetVideoMetadata }
  match outcome with
  | .resolved result =>
    ({ s with hasAudio := result, uploadEnabled := result, runs := runs }, [])
  | .rejected _ =>
    ({ s with hasAudio := false, uploadEnabled := false, runs := runs },
     [Command.consoleError .errorCheckingVideoAudio])

/-- The function `handleFileChange` from the settlement of `getVideoMetadata` to
its end (lines 35-45), for invocation `i`.  The test of line 42 reads the
`hasAudio` of the closure, `r.hasAudio`. -/
def resumeAfterGetVideoMetadata (s : State) (i : Nat) (r : Run)
    (outcome : Settled VideoMetadata Unit) : State × List Command :=
  let runs := s.runs.set i { r with stage := .done }
  let (s1, log) : State × List Command :=
    match outcome with
    | .resolved metadata => ({ s with videoMetadata := some metadata, runs := runs }, [])
    | .rejected _ =>
      ({ s with videoMetadata := none, runs := runs },
       [Command.consoleError .errorGettingVideoMetadata])
  if r.hasAudio then
    let (s2, cmds) := initializeWaveform s1 r.file
    (s2, log ++ cmds)
  else (s1, log)

/-- Run a list of handlers one after the other, collecting their commands. -/
def dispatch : List (State → State × List Command) → State → State × List Command
  | [], s => (s, [])
  | h :: hs, s =>
    let (s1, c1) := h s
    let (s2, c2) := dispatch hs s1
    (s2, c1 ++ c2)

/-! ## Events -/

/-- The tasks the browser can run on the component. -/
inductive Event where
  /-- The `change` event of the file input; `none` when `files[0]` is undefined. -/
  | fileChange (file : Option File)
  /-- The promise of `checkVideoAudio` awaited by invocation `run` has settled. -/
  | checkVideoAudioSettled (run : Nat)
  /-- The promise of `getVideoMetadata` awaited by invocation `run` has settled. -/
  | getVideoMetadataSettled (run : Nat)
  /-- A click on the play/pause button. -/
  | click
  /-- The video element has loaded the metadata of its source. -/
  | loadedmetadata
  /-- The video element has been moved to `time` and notifies `seeked`. -/
  | seeked (time : ℚ)
  /-- The wavesurfer instance `inst` has been moved to `progress` and notifies `seek`. -/
  | seek (inst : Nat) (progress : ℚ)
  deriving DecidableEq, Repr

/-- One task. -/
def step (s : State) : Event → State × List Command
  | .fileChange file => handleFileChange s file
  | .checkVideoAudioSettled i =>
    match s.runs[i]? with
    | some r =>
      match r.stage, checkVideoAudio r.file with
      | .awaitingCheckVideoAudio, some outcome => resumeAfterCheckVideoAudio s i r outcome
      | _, _ => (s, [])
    | none => (s, [])
  | .getVideoMetadataSettled i =>
    match s.runs[i]? with
    | some r =>
      match r.stage with
      | .awaitingGetVideoMetadata => resumeAfterGetVideoMetadata s i r (getVideoMetadata r.file)
      | _ => (s, [])
    | none => (s, [])
  | .click => clickPlayPause s
  | .loadedmetadata =>
    match s.video.src.map File.loadMetadata with
    | some (.loaded duration _ _) =>
      ({ s with
         video := { s.video with duration := duration }
         videoDuration := if s.video.loadedmetadataListeners = 0 then s.videoDuration
                          else duration }, [])
    | _ => (s, [])
  | .seeked time =>
    dispatch (s.video.seekedListeners.map onSeeked)
      { s with video := { s.video with currentTime := time } }
  | .seek inst progress =>
    match s.waveformRef with
    | some w =>
      if w.id = inst then
        dispatch (List.replicate w.seekHandlers (onSeek progress))
          { s with waveformRef := some { w with progress := .finite progress } }
      else (s, [])
    | none => (s, [])

/-- Run a sequence of tasks, collecting the commands. -/
def run : State → List Event → State × List Command
  | s, [] => (s, [])
  | s, e :: es =>
    let (s1, c1) := step s e
    let (s2, c2) := run s1 es
    (s2, c1 ++ c2)

/-- The state after a sequence of tasks. -/
def exec (s : State) (es : List Event) : State := (run s es).1


/-! ## Auxiliary definitions used in the statements -/

/-- The cells written only by `handleFileChange`. -/
def fileState (s : State) : Bool × Bool × Option VideoMetadata × List Run :=
  (s.hasAudio, s.uploadEnabled, s.videoMetadata, s.runs)

/-- Tasks that belong to `handleFileChange`: a pick, or one of its continuations. -/
def Event.isFileTask : Event → Bool
  | .fileChange _ => true
  | .checkVideoAudioSettled _ => true
  | .getVideoMetadataSettled _ => true
  | _ => false

/-- Whether a task is a pick of a file. -/
def Event.isPick : Event → Bool
  | .fileChange _ => true
  | _ => false

/-- The commands that start or stop playback on a surface. -/
def Command.isPlayback : Command → Bool
  | .videoPlay => true
  | .videoPause => true
  | .waveformPlay _ => true
  | .waveformPause _ => true
  | _ => false

/-- Whether a list of commands contains a call of `wavesurfer.create`, that is,
whether `initializeWaveform` was called. -/
def initializesWaveform (cmds : List Command) : Bool :=
  cmds.any fun c => match c with
    | .waveformCreate _ => true
    | _ => false

/-- The value the continuation after `checkVideoAudio` writes to `hasAudio` and
`uploadEnabled` for a file (lines 25-32): the resolved value, or `false` from
the `catch`. -/
def probedAudio (f : File) : Bool :=
  match checkVideoAudio f with
  | some (.resolved result) => result
  | _ => false

/-- The value the continuation after `getVideoMetadata` writes to `videoMetadata`
for a file (lines 34-40): the resolved object, or `null` from the `catch`. -/
def extractedMetadata (f : File) : Option VideoMetadata :=
  match getVideoMetadata f with
  | .resolved metadata => some metadata
  | .rejected _ => none

/-- A pick of `f` in state `s` whose invocation of `handleFileChange` runs to its
end while no task of another invocation runs in between: tasks `es1` run
between the pick and the settlement of the probe, tasks `es2` between the two
settlements. -/
def pickToCompletion (s : State) (f : File) (es1 es2 : List Event) : State :=
  exec s (Event.fileChange (some f) :: es1 ++
    Event.checkVideoAudioSettled s.runs.length :: es2 ++
    [Event.getVideoMetadataSettled s.runs.length])

/-! ## Concrete files used in the examples -/

/-- A 5-second 640x360 video with one audio channel. -/
def monoClip : File :=
  { name := 1, readable := true, decodeAudioData := .decoded 1, loadMetadata := .loaded (.finite 5) 640 360 }

/-- A 10-second 1280x720 video whose audio decodes to zero channels. -/
def silentClip : File :=
  { name := 2, readable := true, decodeAudioData := .decoded 0, loadMetadata := .loaded (.finite 10) 1280 720 }

/-- A file with one audio channel that the detached video element cannot parse. -/
def brokenClip : File :=
  { name := 3, readable := true, decodeAudioData := .decoded 1, loadMetadata := .error }

/-! ## Overlapping picks -/

/-- The task orders of two overlapping invocations of `handleFileChange`: file
`A` is picked as invocation `a`, file `B` as invocation `a + 1`, either before
the probe of `A` has settled (the first six orders) or after it and before the
metadata of `A` has settled (the last three).  In each invocation the probe
settles before the metadata, because `getVideoMetadata` is only called after
the first `await`. -/
def overlappingPicks (A B : File) (a : Nat) : List (List Event) :=
  let pickA := Event.fileChange (some A)
  let pickB := Event.fileChange (some B)
  let probeA := Event.checkVideoAudioSettled a
  let probeB := Event.checkVideoAudioSettled (a + 1)
  let metaA := Event.getVideoMetadataSettled a
  let metaB := Event.getVideoMetadataSettled (a + 1)
  [ [pickA, pickB, probeA, metaA, probeB, metaB],
    [pickA, pickB, probeA, probeB, metaA, metaB],
    [pickA, pickB, probeA, probeB, metaB, metaA],
    [pickA, pickB, probeB, probeA, metaA, metaB],
    [pickA, pickB, probeB, probeA, metaB, metaA],
    [pickA, pickB, probeB, metaB, probeA, metaA],
    [pickA, probeA, pickB, metaA, probeB, metaB],
    [pickA, probeA, pickB, probeB, metaA, metaB],
    [pickA, probeA, pickB, probeB, metaB, metaA] ]

/-- The invocation whose probe settlement comes last in a task order. -/
def lastProbe : List Event → Option Nat
  | [] => none
  | e :: es =>
    match lastProbe es with
    | some i => some i
    | none =>
      match e with
      | .checkVideoAudioSettled i => some i
      | _ => none

/-- The invocation whose metadata settlement comes last in a task order. -/
def lastMetadata : List Event → Option Nat
  | [] => none
  | e :: es =>
    match lastMetadata es with
    | some i => some i
    | none =>
      match e with
      | .getVideoMetadataSettled i => some i
      | _ => none

/-- The effect of a task on the cells written by `handleFileChange`, as a
function of those cells alone (shown below to agree with `step`). -/
def fileStep (c : Bool × Bool × Option VideoMetadata × List Run) :
    Event → Bool × Bool × Option VideoMetadata × List Run
  | .fileChange (some f) =>
    (c.1, c.2.1, c.2.2.1,
      c.2.2.2 ++ [{ file := f, hasAudio := c.1, stage := .awaitingCheckVideoAudio }])
  | .checkVideoAudioSettled i =>
    match c.2.2.2[i]? with
    | some r =>
      if r.stage = .awaitingCheckVideoAudio ∧ (checkVideoAudio r.file).isSome = true then
        (probedAudio r.file, probedAudio r.file, c.2.2.1,
          c.2.2.2.set i { r with stage := .awaitingGetVideoMetadata })
      else c
    | none => c
  | .getVideoMetadataSettled i =>
    match c.2.2.2[i]? with
    | some r =>
      if r.stage = .awaitingGetVideoMetadata then
        (c.1, c.2.1, extractedMetadata r.file, c.2.2.2.set i { r with stage := .done })
      else c
    | none => c
  | _ => c

/-! ## Wiring of the seek handlers -/

/-- The wiring signature of a state: the captured instances of the `seeked`
listeners and the number of `seek` handlers on the current instance. -/
def wiring (s : State) : List (Option Nat) × Option Nat :=
  (s.video.seekedListeners, s.waveformRef.map WaveSurfer.seekHandlers)

/-- No handler of the component reaches a wavesurfer instance: the only `seeked`
listener captured `null`, and the current instance, if any, has no `seek`
handler. -/
def unwired (s : State) : Bool :=
  s.video.seekedListeners == [none] &&
    (match s.waveformRef with
     | some w => w.seekHandlers == 0
     | none => true)

/-- The mounted component after the 5-second mono clip was picked, both promises
settled, `initializeWaveform` ran, and the video element loaded its metadata. -/
def playerWithWaveform : State :=
  exec mounted [Event.fileChange (some monoClip), Event.checkVideoAudioSettled 0,
    Event.getVideoMetadataSettled 0, Event.loadedmetadata]

/-! ## Chains of seek notifications -/

/-- The notification a surface emits when a command sets its position: an
assignment to `currentTime` makes the video element notify `seeked`, and
`seekTo` with a finite fraction makes the wavesurfer instance notify `seek`
with that fraction. -/
def notification : Command → Option Event
  | .videoSetCurrentTime time => some (.seeked time)
  | .waveformSeekTo inst (.finite fraction) => some (.seek inst fraction)
  | _ => none

/-- Deliver a queue of notifications, each followed by the notifications that
its commands cause, for at most `fuel` tasks.  The result is the list of
commands issued and whether the queue was emptied. -/
def cascade : Nat → State → List Event → List Command × Bool
  | _, _, [] => ([], true)
  | 0, _, _ :: _ => ([], false)
  | fuel + 1, s, e :: queue =>
    let (s1, cmds) := step s e
    let (rest, finished) := cascade fuel s1 (queue ++ cmds.filterMap notification)
    (cmds ++ rest, finished)

/-! ## Rounding to binary64 -/

theorem roundHalfEven_sub_le (x : ℚ) : |(roundHalfEven x : ℚ) - x| ≤ 1 / 2 := by
  have h1 : (⌊x⌋ : ℚ) ≤ x := Int.floor_le x
  have h2 : x < ⌊x⌋ + 1 := Int.lt_floor_add_one x
  unfold roundHalfEven
  split_ifs with a b c
  · rw [abs_le]; constructor <;> linarith
  · push_cast; rw [abs_le]; constructor <;> linarith
  · rw [abs_le]; constructor <;> linarith
  · push_cast; rw [abs_le]; constructor <;> linarith

theorem roundHalfEven_le (x : ℚ) (n : ℤ) (h : x ≤ n) : roundHalfEven x ≤ n := by
  have h1 : (⌊x⌋ : ℚ) ≤ x := Int.floor_le x
  have hf : ⌊x⌋ ≤ n := by exact_mod_cast h1.trans h
  have hlt : 0 < x - ⌊x⌋ → ⌊x⌋ + 1 ≤ n := by
    intro hp
    have : (⌊x⌋ : ℚ) < n := by linarith
    have : ⌊x⌋ < n := by exact_mod_cast this
    omega
  unfold roundHalfEven
  split_ifs with a b c
  · exact hf
  · exact hlt (by linarith)
  · exact hf
  · exact hlt (by linarith)

theorem le_roundHalfEven (x : ℚ) (n : ℤ) (h : (n : ℚ) ≤ x) : n ≤ roundHalfEven x := by
  have hf : n ≤ ⌊x⌋ := Int.le_floor.mpr h
  unfold roundHalfEven
  split_ifs <;> omega

theorem roundHalfEven_eq (x : ℚ) (n : ℤ) (h : |x - n| < 1 / 2) : roundHalfEven x = n := by
  rw [abs_lt] at h
  have h1 : (⌊x⌋ : ℚ) ≤ x := Int.floor_le x
  have h2 : x < ⌊x⌋ + 1 := Int.lt_floor_add_one x
  unfold roundHalfEven
  split_ifs with a b c
  · have : (n : ℚ) - 1 < ⌊x⌋ ∧ (⌊x⌋ : ℚ) < n + 1 := by constructor <;> linarith
    have h3 : n - 1 < ⌊x⌋ := by exact_mod_cast this.1
    have h4 : ⌊x⌋ < n + 1 := by exact_mod_cast this.2
    omega
  · have : (n : ℚ) - 1 < ⌊x⌋ + 1 ∧ (⌊x⌋ : ℚ) + 1 < n + 1 := by constructor <;> linarith
    have h3 : n - 1 < ⌊x⌋ + 1 := by exact_mod_cast this.1
    have h4 : ⌊x⌋ + 1 < n + 1 := by exact_mod_cast this.2
    omega
  · exfalso
    have e : x - ⌊x⌋ = 1 / 2 := le_antisymm (not_lt.mp b) (not_lt.mp a)
    have : (n : ℚ) - 1 < ⌊x⌋ ∧ (⌊x⌋ : ℚ) < n := by constructor <;> linarith
    have h3 : n - 1 < ⌊x⌋ := by exact_mod_cast this.1
    have h4 : ⌊x⌋ < n := by exact_mod_cast this.2
    omega
  · exfalso
    have e : x - ⌊x⌋ = 1 / 2 := le_antisymm (not_lt.mp b) (not_lt.mp a)
    have : (n : ℚ) - 1 < ⌊x⌋ ∧ (⌊x⌋ : ℚ) < n := by constructor <;> linarith
    have h3 : n - 1 < ⌊x⌋ := by exact_mod_cast this.1
    have h4 : ⌊x⌋ < n := by exact_mod_cast this.2
    omega

theorem ulp_pos (q : ℚ) : (0 : ℚ) < 2 ^ ulpExponent q := zpow_pos (by norm_num) _

theorem ulp_le (q : ℚ) (hne : q ≠ 0) :
    (2 : ℚ) ^ ulpExponent q ≤ |q| * 2 ^ (-52 : ℤ) + 2 ^ (-1074 : ℤ) := by
  have hp : (0 : ℚ) < 2 ^ (-1074 : ℤ) := zpow_pos (by norm_num) _
  have hq : (0 : ℚ) ≤ |q| * 2 ^ (-52 : ℤ) := mul_nonneg (abs_nonneg q) (zpow_pos (by norm_num) _).le
  unfold ulpExponent
  rcases max_cases (Int.log 2 |q| - 52) (-1074) with ⟨e, h⟩ | ⟨e, h⟩
  · rw [e]
    have := Int.zpow_log_le_self (b := 2) (by norm_num) (abs_pos.mpr hne)
    rw [sub_eq_add_neg, zpow_add₀ (by norm_num : (2 : ℚ) ≠ 0)]
    have h52 : (0 : ℚ) < 2 ^ (-52 : ℤ) := zpow_pos (by norm_num) _
    push_cast at this
    nlinarith
  · rw [e]
    linarith

theorem roundHalfEven_zero : roundHalfEven 0 = 0 := by
  simpa using roundHalfEven_eq 0 0 (by norm_num)

theorem roundDouble_zero : roundDouble 0 = 0 := by
  simp [roundDouble, roundHalfEven_zero]

theorem roundDouble_sub_le (q : ℚ) :
    |roundDouble q - q| ≤ |q| * 2 ^ (-53 : ℤ) + 2 ^ (-1075 : ℤ) := by
  rcases eq_or_ne q 0 with rfl | hne
  · rw [roundDouble_zero]
    simp only [sub_self, abs_zero, zero_mul, zero_add]
    exact (zpow_pos (by norm_num) _).le
  have hu := ulp_pos q
  have h1 := roundHalfEven_sub_le (q / 2 ^ ulpExponent q)
  have e : roundDouble q - q =
      ((roundHalfEven (q / 2 ^ ulpExponent q) : ℚ) - q / 2 ^ ulpExponent q) *
        2 ^ ulpExponent q := by
    unfold roundDouble
    field_simp
  rw [e, abs_mul, abs_of_pos hu]
  have h2 := ulp_le q hne
  have e53 : (2 : ℚ) ^ (-53 : ℤ) = 2 ^ (-52 : ℤ) / 2 := by norm_num
  have e1075 : (2 : ℚ) ^ (-1075 : ℤ) = 2 ^ (-1074 : ℤ) / 2 := by
    rw [show (-1075 : ℤ) = -1074 + (-1) by norm_num, zpow_add₀ (by norm_num : (2 : ℚ) ≠ 0)]
    norm_num
  rw [e53, e1075]
  calc |(roundHalfEven (q / 2 ^ ulpExponent q) : ℚ) - q / 2 ^ ulpExponent q| * 2 ^ ulpExponent q
      ≤ 1 / 2 * 2 ^ ulpExponent q := mul_le_mul_of_nonneg_right h1 hu.le
    _ ≤ 1 / 2 * (|q| * 2 ^ (-52 : ℤ) + 2 ^ (-1074 : ℤ)) :=
        mul_le_mul_of_nonneg_left h2 (by norm_num)
    _ = |q| * (2 ^ (-52 : ℤ) / 2) + 2 ^ (-1074 : ℤ) / 2 := by ring

theorem roundDouble_nonneg (q : ℚ) (h : 0 ≤ q) : 0 ≤ roundDouble q := by
  unfold roundDouble
  have hu := ulp_pos q
  have : (0 : ℤ) ≤ roundHalfEven (q / 2 ^ ulpExponent q) :=
    le_roundHalfEven _ 0 (by simpa using div_nonneg h hu.le)
  exact mul_nonneg (by exact_mod_cast this) hu.le

theorem roundDouble_le (q : ℚ) (m : ℤ) (k : ℤ) (hk : ulpExponent q ≤ k)
    (h : q ≤ m * 2 ^ k) : roundDouble q ≤ m * 2 ^ k := by
  have hu := ulp_pos q
  obtain ⟨j, hj⟩ : ∃ j : ℕ, k - ulpExponent q = j := ⟨(k - ulpExponent q).toNat, by omega⟩
  have hk2 : (2 : ℚ) ^ k = 2 ^ j * 2 ^ ulpExponent q := by
    rw [← zpow_natCast, ← zpow_add₀ (by norm_num : (2 : ℚ) ≠ 0), ← hj]
    congr 1
    ring
  have hle : q / 2 ^ ulpExponent q ≤ ((m * 2 ^ j : ℤ) : ℚ) := by
    rw [div_le_iff₀ hu]
    push_cast
    rw [mul_assoc, ← hk2]
    exact h
  have := roundHalfEven_le _ _ hle
  unfold roundDouble
  rw [hk2, ← mul_assoc]
  apply mul_le_mul_of_nonneg_right _ hu.le
  exact_mod_cast this


theorem roundDouble_sub_le_half_ulp (q : ℚ) :
    |roundDouble q - q| ≤ 2 ^ ulpExponent q / 2 := by
  have hu := ulp_pos q
  have h1 := roundHalfEven_sub_le (q / 2 ^ ulpExponent q)
  have e : roundDouble q - q =
      ((roundHalfEven (q / 2 ^ ulpExponent q) : ℚ) - q / 2 ^ ulpExponent q) *
        2 ^ ulpExponent q := by
    unfold roundDouble
    field_simp
  rw [e, abs_mul, abs_of_pos hu]
  calc |(roundHalfEven (q / 2 ^ ulpExponent q) : ℚ) - q / 2 ^ ulpExponent q| * 2 ^ ulpExponent q
      ≤ 1 / 2 * 2 ^ ulpExponent q := mul_le_mul_of_nonneg_right h1 hu.le
    _ = 2 ^ ulpExponent q / 2 := by ring

theorem log_abs_le (q : ℚ) (k : ℤ) (hk : 0 ≤ k) (h : |q| < 2 ^ (k + 1)) :
    Int.log 2 |q| ≤ k := by
  rcases eq_or_ne q 0 with rfl | hne
  · simpa using hk
  · have := (Int.lt_zpow_iff_log_lt (b := 2) (by norm_num) (abs_pos.mpr hne)).mp
      (by exact_mod_cast h)
    omega

theorem log_abs_eq (q : ℚ) (k : ℤ) (h1 : 2 ^ k ≤ |q|) (h2 : |q| < 2 ^ (k + 1)) :
    Int.log 2 |q| = k := by
  have hpos : 0 < |q| := lt_of_lt_of_le (zpow_pos (by norm_num) _) h1
  have a := (Int.lt_zpow_iff_log_lt (b := 2) (by norm_num) hpos).mp (by exact_mod_cast h2)
  have b := (Int.zpow_le_iff_le_log (b := 2) (by norm_num) hpos).mp (by exact_mod_cast h1)
  omega

theorem roundDouble_eq (q : ℚ) (k n : ℤ) (h1 : 2 ^ k ≤ |q|) (h2 : |q| < 2 ^ (k + 1))
    (hk : -1022 ≤ k) (hn : |q / 2 ^ (k - 52) - n| < 1 / 2) :
    roundDouble q = n * 2 ^ (k - 52) := by
  have e : ulpExponent q = k - 52 := by
    unfold ulpExponent
    rw [log_abs_eq q k h1 h2]
    omega
  unfold roundDouble
  rw [e, roundHalfEven_eq _ n hn]

theorem maxDouble_eq : maxDouble = ((2 ^ 53 - 1 : ℤ) : ℚ) * 2 ^ (971 : ℤ) := by
  unfold maxDouble
  norm_num

theorem maxDouble_lt : maxDouble < 2 ^ ((1023 : ℤ) + 1) := by
  unfold maxDouble
  norm_num

theorem roundDouble_eq_of_pos (q : ℚ) (k n : ℤ) (h1 : 2 ^ k ≤ q) (h2 : q < 2 ^ (k + 1))
    (hk : -1022 ≤ k) (hlo : (n : ℚ) - 1 / 2 < q / 2 ^ (k - 52))
    (hhi : q / 2 ^ (k - 52) < n + 1 / 2) :
    roundDouble q = n * 2 ^ (k - 52) := by
  have hpos : 0 < q := lt_of_lt_of_le (zpow_pos (by norm_num) _) h1
  refine roundDouble_eq q k n ?_ ?_ hk ?_
  · rwa [abs_of_pos hpos]
  · rwa [abs_of_pos hpos]
  · rw [abs_lt]; constructor <;> linarith

theorem round_of_roundDouble (q r : ℚ) (h : roundDouble q = r) (h0 : 0 ≤ r)
    (hr : r ≤ maxDouble) : Num.round q = Num.finite r := by
  unfold Num.round
  rw [h, abs_of_nonneg h0, if_pos hr]

theorem seekTime_half_five : seekTime (1 / 2) (Num.finite 5) = Num.finite (5 / 2) := by
  have h := roundDouble_eq_of_pos (1 / 2 * 5) 1 (5 * 2 ^ 50) (by norm_num) (by norm_num)
    (by norm_num) (by norm_num) (by norm_num)
  unfold seekTime Num.mul
  refine (round_of_roundDouble _ _ h ?_ ?_).trans ?_
  · norm_num
  · unfold maxDouble; norm_num
  · norm_num

theorem seekedFraction_half : seekedFraction (5 / 2) (Num.finite 5) = Num.finite (1 / 2) := by
  have h := roundDouble_eq_of_pos (5 / 2 / 5) (-1) (2 ^ 52) (by norm_num) (by norm_num)
    (by norm_num) (by norm_num) (by norm_num)
  simp only [seekedFraction, Num.div]
  rw [if_neg (by norm_num)]
  refine (round_of_roundDouble _ _ h ?_ ?_).trans ?_
  · norm_num
  · unfold maxDouble; norm_num
  · norm_num


/-! ## Play/pause -/

/-- C3: `handlePlayPause` flips `isPlaying`; when playing it issues `pause` to the
video and, if a wavesurfer instance exists, `pause` to that instance; otherwise
it issues `play` to the video and, if an instance exists, `play` to it; with no
instance only the video command is issued.  Two consecutive calls restore
`isPlaying`. -/
theorem handlePlayPause_toggles (s : State) :
    (handlePlayPause s).1.isPlaying = !s.isPlaying ∧
    (handlePlayPause s).2 =
      (if s.isPlaying then Command.videoPause else Command.videoPlay) ::
        (match s.waveformRef with
         | none => []
         | some w => [if s.isPlaying then Command.waveformPause w.id
                      else Command.waveformPlay w.id]) ∧
    (handlePlayPause s).1.video.paused = s.isPlaying ∧
    (handlePlayPause (handlePlayPause s).1).1.isPlaying = s.isPlaying := by
  cases hp : s.isPlaying <;> cases hw : s.waveformRef <;>
    simp [handlePlayPause, hp, hw]

/-! ## The two seek conversions -/

/-- C6 (as the code behaves): for a finite duration above zero and a time between
zero and the duration, the conversions of the specification are exact over the
rationals and their fraction lies between 0 and 1; the fraction the `seeked`
listener computes in binary64 is finite, lies between 0 and 1 and is within
`2^-53` of the exact one, and the time the `seek` handler computes from it is
finite and within `duration * 2^-52 + 2^-1075` of the original time. -/
theorem seek_round_trip (duration t : ℚ) (hd : 0 < duration) (hmax : duration ≤ maxDouble)
    (h0 : 0 ≤ t) (h1 : t ≤ duration) :
    exactTime (exactFraction t duration) duration = t ∧
    0 ≤ exactFraction t duration ∧ exactFraction t duration ≤ 1 ∧
    ∃ fraction time : ℚ,
      seekedFraction t (Num.finite duration) = Num.finite fraction ∧
      0 ≤ fraction ∧ fraction ≤ 1 ∧
      seekTime fraction (Num.finite duration) = Num.finite time ∧
      |fraction - exactFraction t duration| ≤ 2 ^ (-53 : ℤ) ∧
      |time - t| ≤ duration * 2 ^ (-52 : ℤ) + 2 ^ (-1075 : ℤ) := by
  have hq0 : 0 ≤ t / duration := div_nonneg h0 hd.le
  have hq1 : t / duration ≤ 1 := (div_le_one hd).mpr h1
  have hone : (1 : ℚ) ≤ maxDouble := by unfold maxDouble; norm_num
  -- the first rounding
  have he1 : ulpExponent (t / duration) ≤ -52 := by
    have := log_abs_le (t / duration) 0 le_rfl
      (by rw [abs_of_nonneg hq0]; norm_num; linarith)
    unfold ulpExponent
    omega
  have hf0 := roundDouble_nonneg _ hq0
  have hf1 : roundDouble (t / duration) ≤ 1 := by
    have := roundDouble_le (t / duration) 1 0 (by omega) (by simpa using hq1)
    simpa using this
  have hferr : |roundDouble (t / duration) - t / duration| ≤ 2 ^ (-53 : ℤ) := by
    refine (roundDouble_sub_le_half_ulp _).trans ?_
    have : (2 : ℚ) ^ ulpExponent (t / duration) ≤ 2 ^ (-52 : ℤ) :=
      zpow_le_zpow_right₀ (by norm_num) he1
    have e53 : (2 : ℚ) ^ (-53 : ℤ) = 2 ^ (-52 : ℤ) / 2 := by norm_num
    rw [e53]
    linarith
  -- the second rounding
  have hx0 : 0 ≤ roundDouble (t / duration) * duration := mul_nonneg hf0 hd.le
  have hx1 : roundDouble (t / duration) * duration ≤ duration := by nlinarith
  have he2 : ulpExponent (roundDouble (t / duration) * duration) ≤ 971 := by
    have := log_abs_le (roundDouble (t / duration) * duration) 1023 (by norm_num)
      (by rw [abs_of_nonneg hx0]; exact lt_of_le_of_lt (hx1.trans hmax) maxDouble_lt)
    unfold ulpExponent
    omega
  have hr0 := roundDouble_nonneg _ hx0
  have hr1 : roundDouble (roundDouble (t / duration) * duration) ≤ maxDouble := by
    rw [maxDouble_eq]
    exact roundDouble_le _ _ _ he2 (by rw [← maxDouble_eq]; exact hx1.trans hmax)
  have hrerr : |roundDouble (roundDouble (t / duration) * duration) -
      roundDouble (t / duration) * duration| ≤
      duration * 2 ^ (-53 : ℤ) + 2 ^ (-1075 : ℤ) := by
    have h53 : (0 : ℚ) < 2 ^ (-53 : ℤ) := zpow_pos (by norm_num) _
    refine (roundDouble_sub_le _).trans ?_
    rw [abs_of_nonneg hx0]
    nlinarith
  have hxerr : |roundDouble (t / duration) * duration - t| ≤ duration * 2 ^ (-53 : ℤ) := by
    have e : roundDouble (t / duration) * duration - t =
        (roundDouble (t / duration) - t / duration) * duration := by
      field_simp
    rw [e, abs_mul, abs_of_pos hd, mul_comm]
    exact mul_le_mul_of_nonneg_left hferr hd.le
  refine ⟨?_, hq0, hq1, roundDouble (t / duration),
    roundDouble (roundDouble (t / duration) * duration), ?_, hf0, hf1, ?_, hferr, ?_⟩
  · unfold exactTime exactFraction
    exact div_mul_cancel₀ t hd.ne.symm
  · simp [seekedFraction, Num.div, hd.ne.symm, Num.round, abs_of_nonneg hf0, hf1.trans hone]
  · simp [seekTime, Num.mul, Num.round, abs_of_nonneg hr0, hr1]
  · have e52 : (2 : ℚ) ^ (-52 : ℤ) = 2 ^ (-53 : ℤ) + 2 ^ (-53 : ℤ) := by norm_num
    have tri := abs_sub_le (roundDouble (roundDouble (t / duration) * duration))
      (roundDouble (t / duration) * duration) t
    rw [e52]
    linarith

/-- C6, for a video of 25 seconds at 7 seconds. -/
theorem seek_round_trip_witness :
    (0 : ℚ) < 25 ∧ (25 : ℚ) ≤ maxDouble ∧
    ∃ fraction time : ℚ,
      seekedFraction 7 (Num.finite 25) = Num.finite fraction ∧
      0 ≤ fraction ∧ fraction ≤ 1 ∧
      seekTime fraction (Num.finite 25) = Num.finite time ∧
      |fraction - exactFraction 7 25| ≤ 2 ^ (-53 : ℤ) ∧
      |time - 7| ≤ 25 * 2 ^ (-52 : ℤ) + 2 ^ (-1075 : ℤ) :=
  ⟨by norm_num, by unfold maxDouble; norm_num,
   (seek_round_trip 25 7 (by norm_num) (by unfold maxDouble; norm_num) (by norm_num)
      (by norm_num)).2.2.2⟩

/-- C6 fails as stated for a duration of `Infinity`, which is above zero and above
every time: at 5 seconds the `seeked` listener computes the fraction 0, and the
`seek` handler computes `NaN` from it, which is no time at all. -/
theorem seek_round_trip_infinite_duration :
    seekedFraction 5 (Num.infinity false) = Num.finite 0 ∧
    seekTime 0 (Num.infinity false) = Num.nan ∧
    (∀ time : ℚ, seekTime 0 (Num.infinity false) ≠ Num.finite time) := by
  refine ⟨rfl, by simp [seekTime, Num.mul], ?_⟩
  intro time h
  simp [seekTime, Num.mul] at h

theorem seekedFraction_seven : seekedFraction 7 (Num.finite 25) =
    Num.finite (5044031582654956 / 2 ^ 54) := by
  have h := roundDouble_eq_of_pos (7 / 25) (-2) 5044031582654956 (by norm_num) (by norm_num)
    (by norm_num) (by norm_num) (by norm_num)
  simp only [seekedFraction, Num.div]
  rw [if_neg (by norm_num)]
  refine (round_of_roundDouble _ _ h ?_ ?_).trans ?_
  · norm_num
  · unfold maxDouble; norm_num
  · norm_num

theorem seekTime_seven : seekTime (5044031582654956 / 2 ^ 54) (Num.finite 25) =
    Num.finite (7 + 1 / 2 ^ 50) := by
  have h := roundDouble_eq_of_pos (5044031582654956 / 2 ^ 54 * 25) 2 (7 * 2 ^ 50 + 1)
    (by norm_num) (by norm_num) (by norm_num) (by norm_num) (by norm_num)
  unfold seekTime Num.mul
  refine (round_of_roundDouble _ _ h ?_ ?_).trans ?_
  · norm_num
  · unfold maxDouble; norm_num
  · norm_num

/-! ## Frame lemmas -/

theorem dispatch_frame {α : Type} (f : State → α)
    (hs : List (State → State × List Command))
    (h : ∀ g ∈ hs, ∀ s, f (g s).1 = f s) (s : State) :
    f (dispatch hs s).1 = f s := by
  induction hs generalizing s with
  | nil => rfl
  | cons g gs ih =>
    simp only [dispatch]
    rw [ih (fun g1 hg1 => h g1 (List.mem_cons_of_mem _ hg1))]
    exact h g (List.mem_cons_self _ _) s

theorem onSeeked_fileState (c : Option Nat) (s : State) :
    fileState (onSeeked c s).1 = fileState s := by
  cases c <;> rfl

theorem onSeek_fileState (p : ℚ) (s : State) :
    fileState (onSeek p s).1 = fileState s := by
  unfold onSeek
  split <;> rfl

theorem step_fileState (s : State) (e : Event) (he : e.isFileTask = false) :
    fileState (step s e).1 = fileState s := by
  cases e with
  | fileChange f => simp [Event.isFileTask] at he
  | checkVideoAudioSettled i => simp [Event.isFileTask] at he
  | getVideoMetadataSettled i => simp [Event.isFileTask] at he
  | click =>
    simp only [step, clickPlayPause, handlePlayPause]
    split
    · rfl
    · split <;> rfl
  | loadedmetadata =>
    simp only [step]
    split <;> rfl
  | seeked t =>
    simp only [step]
    rw [dispatch_frame fileState]
    · rfl
    · intro g hg s1
      obtain ⟨c, -, rfl⟩ := List.mem_map.mp hg
      exact onSeeked_fileState c s1
  | seek inst p =>
    simp only [step]
    split
    · split
      · rw [dispatch_frame fileState]
        · rfl
        · intro g hg s1
          obtain ⟨-, rfl⟩ := List.mem_replicate.mp hg
          exact onSeek_fileState p s1
      · rfl
    · rfl

theorem exec_nil (s : State) : exec s [] = s := rfl

theorem exec_cons (s : State) (e : Event) (es : List Event) :
    exec s (e :: es) = exec (step s e).1 es := rfl

theorem exec_append (s : State) (es fs : List Event) :
    exec s (es ++ fs) = exec (exec s es) fs := by
  induction es generalizing s with
  | nil => rfl
  | cons e es ih => simp only [List.cons_append, exec_cons, ih]

theorem exec_fileState (s : State) (es : List Event)
    (h : ∀ e ∈ es, e.isFileTask = false) : fileState (exec s es) = fileState s := by
  induction es generalizing s with
  | nil => rfl
  | cons e es ih =>
    rw [exec_cons, ih _ (fun e1 h1 => h e1 (List.mem_cons_of_mem _ h1)),
      step_fileState s e (h e (List.mem_cons_self _ _))]

/-! ## The upload gate -/

theorem resumeAfterCheckVideoAudio_uploadEnabled (s : State) (i : Nat) (r : Run)
    (outcome : Settled Bool Bool) :
    (resumeAfterCheckVideoAudio s i r outcome).1.uploadEnabled =
      (resumeAfterCheckVideoAudio s i r outcome).1.hasAudio := by
  cases outcome <;> rfl

theorem step_uploadEnabled (s : State) (e : Event) (h : s.uploadEnabled = s.hasAudio) :
    (step s e).1.uploadEnabled = (step s e).1.hasAudio := by
  by_cases he : e.isFileTask = false
  · have := step_fileState s e he
    simp only [fileState, Prod.mk.injEq] at this
    rw [this.2.1, this.1, h]
  · cases e with
    | fileChange f => cases f <;> simpa [step, handleFileChange] using h
    | checkVideoAudioSettled i =>
      simp only [step]
      split
      · split
        · exact resumeAfterCheckVideoAudio_uploadEnabled _ _ _ _
        · exact h
      · exact h
    | getVideoMetadataSettled i =>
      simp only [step]
      split
      · split
        · simp only [resumeAfterGetVideoMetadata, initializeWaveform]
          split <;> split <;> simpa using h
        · exact h
      · exact h
    | click => simp [Event.isFileTask] at he
    | loadedmetadata => simp [Event.isFileTask] at he
    | seeked t => simp [Event.isFileTask] at he
    | seek inst p => simp [Event.isFileTask] at he

/-- C2: in every state reachable from the mounted component by any sequence of
picks, probe and metadata settlements, clicks and surface notifications,
`uploadEnabled` equals `hasAudio`. -/
theorem uploadEnabled_eq_hasAudio (es : List Event) :
    (exec mounted es).uploadEnabled = (exec mounted es).hasAudio := by
  have key : ∀ (es : List Event) (s : State), s.uploadEnabled = s.hasAudio →
      (exec s es).uploadEnabled = (exec s es).hasAudio := by
    intro es
    induction es with
    | nil => intro s h; exact h
    | cons e es ih => intro s h; exact ih _ (step_uploadEnabled s e h)
  exact key es mounted rfl

/-! ## The continuations of `handleFileChange` -/

theorem getElem?_append_length {α : Type} (l t : List α) (x : α) :
    (l ++ x :: t)[l.length]? = some x := by
  rw [List.getElem?_append_right (le_refl _)]
  simp

theorem getElem?_append_length_succ {α : Type} (l t : List α) (x y : α) :
    (l ++ x :: y :: t)[l.length + 1]? = some y := by
  rw [List.getElem?_append_right (Nat.le_succ _)]
  simp

theorem step_checkVideoAudioSettled (s : State) (i : Nat) (r : Run) (o : Settled Bool Bool)
    (hr : s.runs[i]? = some r) (hs : r.stage = Stage.awaitingCheckVideoAudio)
    (ho : checkVideoAudio r.file = some o) :
    step s (Event.checkVideoAudioSettled i) = resumeAfterCheckVideoAudio s i r o := by
  simp only [step, hr, hs, ho]

theorem step_getVideoMetadataSettled (s : State) (i : Nat) (r : Run)
    (hr : s.runs[i]? = some r) (hs : r.stage = Stage.awaitingGetVideoMetadata) :
    step s (Event.getVideoMetadataSettled i) =
      resumeAfterGetVideoMetadata s i r (getVideoMetadata r.file) := by
  simp only [step, hr, hs]

theorem resumeAfterCheckVideoAudio_fileState (s : State) (i : Nat) (r : Run)
    (o : Settled Bool Bool) (ho : checkVideoAudio r.file = some o) :
    fileState (resumeAfterCheckVideoAudio s i r o).1 =
      (probedAudio r.file, probedAudio r.file, s.videoMetadata,
        s.runs.set i { r with stage := Stage.awaitingGetVideoMetadata }) := by
  cases o <;> simp [resumeAfterCheckVideoAudio, fileState, probedAudio, ho]

theorem resumeAfterGetVideoMetadata_fileState (s : State) (i : Nat) (r : Run) :
    fileState (resumeAfterGetVideoMetadata s i r (getVideoMetadata r.file)).1 =
      (s.hasAudio, s.uploadEnabled, extractedMetadata r.file,
        s.runs.set i { r with stage := Stage.done }) := by
  unfold resumeAfterGetVideoMetadata extractedMetadata
  cases getVideoMetadata r.file <;> cases r.hasAudio <;>
    simp [fileState, initializeWaveform]

theorem handleFileChange_fileState (s : State) (f : File) :
    fileState (step s (Event.fileChange (some f))).1 =
      (s.hasAudio, s.uploadEnabled, s.videoMetadata,
        s.runs ++ [{ file := f, hasAudio := s.hasAudio,
                     stage := Stage.awaitingCheckVideoAudio }]) := rfl

theorem probedAudio_eq_true (f : File) (hr : f.readable = true) :
    probedAudio f = true ↔ ∃ n, 1 ≤ n ∧ f.decodeAudioData = DecodeResult.decoded n := by
  unfold probedAudio checkVideoAudio
  rw [if_pos hr]
  cases f.decodeAudioData with
  | decoded n => simp [Nat.succ_le_iff]
  | failed => simp

theorem probedAudio_eq_false (f : File) (hr : f.readable = true) :
    probedAudio f = false ↔
      f.decodeAudioData = DecodeResult.decoded 0 ∨ f.decodeAudioData = DecodeResult.failed := by
  unfold probedAudio checkVideoAudio
  rw [if_pos hr]
  cases f.decodeAudioData with
  | decoded n => simp
  | failed => simp

theorem pickToCompletion_fileState (s : State) (f : File) (es1 es2 : List Event)
    (h1 : ∀ e ∈ es1, e.isFileTask = false) (h2 : ∀ e ∈ es2, e.isFileTask = false)
    (hr : f.readable = true) :
    fileState (pickToCompletion s f es1 es2) =
      (probedAudio f, probedAudio f, extractedMetadata f,
        s.runs ++ [{ file := f, hasAudio := s.hasAudio, stage := Stage.done }]) := by
  obtain ⟨o, ho⟩ : ∃ o, checkVideoAudio f = some o := by
    unfold checkVideoAudio
    rw [if_pos hr]
    cases f.decodeAudioData <;> simp
  unfold pickToCompletion
  rw [exec_append, exec_append, exec_cons, exec_cons, exec_cons, exec_nil]
  have e1 := exec_fileState (step s (Event.fileChange (some f))).1 es1 h1
  rw [handleFileChange_fileState] at e1
  simp only [fileState, Prod.mk.injEq] at e1
  obtain ⟨a1, b1, c1, d1⟩ := e1
  have g1 := step_checkVideoAudioSettled (exec (step s (Event.fileChange (some f))).1 es1)
    s.runs.length _ o (by rw [d1]; exact getElem?_append_length _ _ _) rfl ho
  have e2 := exec_fileState
    (step (exec (step s (Event.fileChange (some f))).1 es1)
      (Event.checkVideoAudioSettled s.runs.length)).1 es2 h2
  rw [g1, resumeAfterCheckVideoAudio_fileState _ _ _ _ ho] at e2
  simp only [fileState, Prod.mk.injEq, d1, List.set_append_right, le_refl, Nat.sub_self,
    List.set_cons_zero] at e2
  obtain ⟨a2, b2, c2, d2⟩ := e2
  rw [g1]
  have g2 := step_getVideoMetadataSettled
    (exec (resumeAfterCheckVideoAudio (exec (step s (Event.fileChange (some f))).1 es1)
      s.runs.length _ o).1 es2)
    s.runs.length _ (by rw [d2]; exact getElem?_append_length _ _ _) rfl
  rw [g2, resumeAfterGetVideoMetadata_fileState]
  simp [a2, b2, d2]

/-- C1 (as the code behaves): when a pick of a readable file runs
`handleFileChange` to its end with no pick and no continuation of another
invocation in between, the invocation is done, `hasAudio` is
true exactly when the decode succeeded with at least one channel, it is false
exactly when the decode gave zero channels or failed, and the `disabled`
attribute of the play/pause button is the negation of `hasAudio`. -/
theorem hasAudio_after_pick (s : State) (f : File) (es1 es2 : List Event)
    (h1 : ∀ e ∈ es1, e.isFileTask = false) (h2 : ∀ e ∈ es2, e.isFileTask = false)
    (hr : f.readable = true) :
    ((pickToCompletion s f es1 es2).runs[s.runs.length]?).map Run.stage = some Stage.done ∧
    ((pickToCompletion s f es1 es2).hasAudio = true ↔
      ∃ n, 1 ≤ n ∧ f.decodeAudioData = DecodeResult.decoded n) ∧
    ((pickToCompletion s f es1 es2).hasAudio = false ↔
      f.decodeAudioData = DecodeResult.decoded 0 ∨
        f.decodeAudioData = DecodeResult.failed) ∧
    playPauseButtonDisabled (pickToCompletion s f es1 es2) =
      !(pickToCompletion s f es1 es2).hasAudio ∧
    (playPauseButtonDisabled (pickToCompletion s f es1 es2) = false ↔
      ∃ n, 1 ≤ n ∧ f.decodeAudioData = DecodeResult.decoded n) := by
  have key := pickToCompletion_fileState s f es1 es2 h1 h2 hr
  simp only [fileState, Prod.mk.injEq] at key
  obtain ⟨a, -, -, d⟩ := key
  refine ⟨?_, ?_, ?_, rfl, ?_⟩
  · rw [d, getElem?_append_length]; rfl
  · rw [a]; exact probedAudio_eq_true f hr
  · rw [a]; exact probedAudio_eq_false f hr
  · simp only [playPauseButtonDisabled, Bool.not_eq_false_eq_eq_true, a]
    simpa using probedAudio_eq_true f hr

theorem unreadable_probe_never_resumes (s : State) (i : Nat) (r : Run)
    (hr : s.runs[i]? = some r) (hf : r.file.readable = false) :
    step s (Event.checkVideoAudioSettled i) = (s, []) := by
  cases hs : r.stage <;> simp [step, hr, checkVideoAudio, hf, hs]

/-! ## The disabled play/pause button -/

theorem dispatch_commands (P : Command → Prop)
    (hs : List (State → State × List Command))
    (h : ∀ g ∈ hs, ∀ s, ∀ c ∈ (g s).2, P c) (s : State) :
    ∀ c ∈ (dispatch hs s).2, P c := by
  induction hs generalizing s with
  | nil => intro c hc; simp [dispatch] at hc
  | cons g gs ih =>
    intro c hc
    simp only [dispatch, List.mem_append] at hc
    rcases hc with hc | hc
    · exact h g (List.mem_cons_self _ _) s c hc
    · exact ih (fun g1 hg1 => h g1 (List.mem_cons_of_mem _ hg1)) _ c hc

theorem handlePlayPause_always_commands (s : State) :
    ∃ c ∈ (handlePlayPause s).2, c.isPlayback = true := by
  unfold handlePlayPause
  split
  · exact ⟨Command.videoPause, List.mem_cons_self _ _, rfl⟩
  · exact ⟨Command.videoPlay, List.mem_cons_self _ _, rfl⟩

theorem resumeAfterCheckVideoAudio_commands (s : State) (i : Nat) (r : Run)
    (o : Settled Bool Bool) :
    ∀ c ∈ (resumeAfterCheckVideoAudio s i r o).2, c.isPlayback = false := by
  cases o <;> simp [resumeAfterCheckVideoAudio, Command.isPlayback]

theorem resumeAfterGetVideoMetadata_commands (s : State) (i : Nat) (r : Run)
    (o : Settled VideoMetadata Unit) :
    ∀ c ∈ (resumeAfterGetVideoMetadata s i r o).2, c.isPlayback = false := by
  unfold resumeAfterGetVideoMetadata
  cases o <;> cases hh : r.hasAudio <;> cases hw : s.waveformRef <;>
    simp [initializeWaveform, hw, Command.isPlayback]

theorem step_playback_only_click (s : State) (e : Event) (he : e ≠ Event.click) :
    ∀ c ∈ (step s e).2, c.isPlayback = false := by
  cases e with
  | fileChange f =>
    cases f <;> simp [step, handleFileChange, Command.isPlayback]
  | checkVideoAudioSettled i =>
    simp only [step]
    split
    · split
      · exact resumeAfterCheckVideoAudio_commands _ _ _ _
      · simp
    · simp
  | getVideoMetadataSettled i =>
    simp only [step]
    split
    · split
      · exact resumeAfterGetVideoMetadata_commands _ _ _ _
      · simp
    · simp
  | click => exact absurd rfl he
  | loadedmetadata =>
    simp only [step]
    split <;> simp
  | seeked t =>
    simp only [step]
    apply dispatch_commands
    intro g hg s1
    obtain ⟨w, -, rfl⟩ := List.mem_map.mp hg
    cases w <;> simp [onSeeked, Command.isPlayback]
  | seek inst p =>
    simp only [step]
    split
    · split
      · apply dispatch_commands
        intro g hg s1
        obtain ⟨-, rfl⟩ := List.mem_replicate.mp hg
        unfold onSeek
        split <;> simp [Command.isPlayback]
      · simp
    · simp

/-- C4: when `hasAudio` is false the play/pause button is rendered disabled and a
click on it is a no-op: no command is issued to either surface and the state,
`isPlaying` included, is unchanged; more generally no task of the component
issues a play or pause command in such a state. -/
theorem click_disabled_without_audio (s : State) (h : s.hasAudio = false) :
    playPauseButtonDisabled s = true ∧ step s Event.click = (s, []) ∧
    (step s Event.click).1.isPlaying = s.isPlaying ∧
    ∀ e, ∀ c ∈ (step s e).2, c.isPlayback = false := by
  have hc : step s Event.click = (s, []) := by
    simp [playPauseButtonDisabled, step, clickPlayPause, h]
  refine ⟨by simp [playPauseButtonDisabled, h], hc, by rw [hc], ?_⟩
  intro e
  by_cases he : e = Event.click
  · subst he
    rw [hc]
    intro c hmem
    simp at hmem
  · exact step_playback_only_click s e he

/-- C4, at the state reached by picking a file whose audio decodes to zero
channels. -/
theorem click_disabled_without_audio_witness :
    (exec mounted [Event.fileChange (some silentClip),
        Event.checkVideoAudioSettled 0]).hasAudio = false ∧
    playPauseButtonDisabled
        (exec mounted [Event.fileChange (some silentClip),
          Event.checkVideoAudioSettled 0]) = true ∧
    step (exec mounted [Event.fileChange (some silentClip),
        Event.checkVideoAudioSettled 0]) Event.click =
      (exec mounted [Event.fileChange (some silentClip),
        Event.checkVideoAudioSettled 0], []) :=
  ⟨by decide,
   (click_disabled_without_audio _ (by decide)).1,
   (click_disabled_without_audio _ (by decide)).2.1⟩


/-- C1 (as the code behaves), for the 5-second mono clip picked in the mounted
component, with a click and a `loadedmetadata` notification in between. -/
theorem hasAudio_after_pick_witness :
    monoClip.readable = true ∧
    (((pickToCompletion mounted monoClip [Event.click] [Event.loadedmetadata]).runs[
        mounted.runs.length]?).map Run.stage = some Stage.done ∧
    ((pickToCompletion mounted monoClip [Event.click] [Event.loadedmetadata]).hasAudio = true ↔
      ∃ n, 1 ≤ n ∧ monoClip.decodeAudioData = DecodeResult.decoded n) ∧
    ((pickToCompletion mounted monoClip [Event.click] [Event.loadedmetadata]).hasAudio = false ↔
      monoClip.decodeAudioData = DecodeResult.decoded 0 ∨
        monoClip.decodeAudioData = DecodeResult.failed) ∧
    playPauseButtonDisabled (pickToCompletion mounted monoClip [Event.click] [Event.loadedmetadata]) =
      !(pickToCompletion mounted monoClip [Event.click] [Event.loadedmetadata]).hasAudio ∧
    (playPauseButtonDisabled
        (pickToCompletion mounted monoClip [Event.click] [Event.loadedmetadata]) = false ↔
      ∃ n, 1 ≤ n ∧ monoClip.decodeAudioData = DecodeResult.decoded n)) :=
  ⟨rfl, hasAudio_after_pick mounted monoClip [Event.click] [Event.loadedmetadata]
    (by decide) (by decide) rfl⟩

/-- C1 fails as stated: the mono clip is picked and still pending when the silent
clip is picked; the probe of the silent clip settles, then the probe of the
mono clip, then the metadata of the silent clip.  No pick lies between the pick
of the silent clip and the end of its invocation, the invocation is done, its
decode gave zero channels, and `hasAudio` is true and the button enabled. -/
theorem stale_probe_after_pick :
    (∀ e ∈ [Event.checkVideoAudioSettled 1, Event.checkVideoAudioSettled 0,
        Event.getVideoMetadataSettled 1], e.isPick = false) ∧
    silentClip.readable = true ∧
    silentClip.decodeAudioData = DecodeResult.decoded 0 ∧
    ((exec mounted [Event.fileChange (some monoClip), Event.fileChange (some silentClip),
        Event.checkVideoAudioSettled 1, Event.checkVideoAudioSettled 0,
        Event.getVideoMetadataSettled 1]).runs[1]?).map Run.stage = some Stage.done ∧
    (exec mounted [Event.fileChange (some monoClip), Event.fileChange (some silentClip),
        Event.checkVideoAudioSettled 1, Event.checkVideoAudioSettled 0,
        Event.getVideoMetadataSettled 1]).hasAudio = true ∧
    playPauseButtonDisabled
      (exec mounted [Event.fileChange (some monoClip), Event.fileChange (some silentClip),
        Event.checkVideoAudioSettled 1, Event.checkVideoAudioSettled 0,
        Event.getVideoMetadataSettled 1]) = false ∧
    ¬ ((exec mounted [Event.fileChange (some monoClip), Event.fileChange (some silentClip),
        Event.checkVideoAudioSettled 1, Event.checkVideoAudioSettled 0,
        Event.getVideoMetadataSettled 1]).hasAudio = true ↔
      ∃ n, 1 ≤ n ∧ silentClip.decodeAudioData = DecodeResult.decoded n) := by
  refine ⟨by decide, rfl, rfl, by decide, by decide, by decide, ?_⟩
  intro h
  obtain ⟨n, hn, he⟩ := h.mp (by decide)
  have : n = 0 := by
    have := he.symm
    simp only [silentClip, DecodeResult.decoded.injEq] at this
    exact this
  omega

/-! ## Metadata -/

/-- C9: when the continuation after `getVideoMetadata` runs for an invocation,
`hasAudio`, `uploadEnabled` and `isPlaying` keep their values; if the promise
was rejected (the detached element fired `error`) `videoMetadata` becomes
`null` and the failure is logged; if it was resolved `videoMetadata` becomes
the duration, width and height the detached element reported. -/
theorem metadata_settlement_local (s : State) (i : Nat) (r : Run)
    (hr : s.runs[i]? = some r) (hs : r.stage = Stage.awaitingGetVideoMetadata) :
    (step s (Event.getVideoMetadataSettled i)).1.hasAudio = s.hasAudio ∧
    (step s (Event.getVideoMetadataSettled i)).1.uploadEnabled = s.uploadEnabled ∧
    (step s (Event.getVideoMetadataSettled i)).1.isPlaying = s.isPlaying ∧
    (r.file.loadMetadata = MetadataResult.error →
      getVideoMetadata r.file = Settled.rejected () ∧
      (step s (Event.getVideoMetadataSettled i)).1.videoMetadata = none ∧
      Command.consoleError LogMessage.errorGettingVideoMetadata ∈
        (step s (Event.getVideoMetadataSettled i)).2) ∧
    (∀ d w h, r.file.loadMetadata = MetadataResult.loaded d w h →
      getVideoMetadata r.file = Settled.resolved ⟨d, w, h⟩ ∧
      (step s (Event.getVideoMetadataSettled i)).1.videoMetadata = some ⟨d, w, h⟩) := by
  rw [step_getVideoMetadataSettled s i r hr hs]
  unfold resumeAfterGetVideoMetadata getVideoMetadata
  cases hm : r.file.loadMetadata <;> cases r.hasAudio <;> simp [initializeWaveform]

/-- C9, for a file the detached element cannot parse, picked after the metadata
of the mono clip was displayed. -/
theorem metadata_settlement_local_witness :
    (exec mounted [Event.fileChange (some monoClip), Event.checkVideoAudioSettled 0,
        Event.getVideoMetadataSettled 0, Event.fileChange (some brokenClip),
        Event.checkVideoAudioSettled 1]).videoMetadata = some ⟨Num.finite 5, 640, 360⟩ ∧
    (step (exec mounted [Event.fileChange (some monoClip), Event.checkVideoAudioSettled 0,
        Event.getVideoMetadataSettled 0, Event.fileChange (some brokenClip),
        Event.checkVideoAudioSettled 1]) (Event.getVideoMetadataSettled 1)).1.videoMetadata
      = none :=
  ⟨by decide,
   ((metadata_settlement_local
      (exec mounted [Event.fileChange (some monoClip), Event.checkVideoAudioSettled 0,
        Event.getVideoMetadataSettled 0, Event.fileChange (some brokenClip),
        Event.checkVideoAudioSettled 1]) 1
      { file := brokenClip, hasAudio := true, stage := Stage.awaitingGetVideoMetadata }
      (by decide) rfl).2.2.2.1 rfl).2.1⟩

/-! ## The gate of `initializeWaveform` -/

theorem set_stage_kept (l : List Run) (i j : Nat) (r rj : Run) (st : Stage)
    (h : l[i]? = some r) (hj : l[j]? = some rj) :
    ∃ r1, (l.set j { rj with stage := st })[i]? = some r1 ∧
      r1.file = r.file ∧ r1.hasAudio = r.hasAudio := by
  by_cases hij : j = i
  · subst hij
    have hlt : j < l.length := (List.getElem?_eq_some.mp h).1
    rw [h] at hj
    cases hj
    exact ⟨_, List.getElem?_set_self hlt, rfl, rfl⟩
  · exact ⟨r, by rw [List.getElem?_set_ne hij]; exact h, rfl, rfl⟩

theorem resumeAfterCheckVideoAudio_runs (s : State) (i : Nat) (r : Run)
    (o : Settled Bool Bool) :
    (resumeAfterCheckVideoAudio s i r o).1.runs =
      s.runs.set i { r with stage := Stage.awaitingGetVideoMetadata } := by
  cases o <;> rfl

theorem resumeAfterGetVideoMetadata_runs (s : State) (i : Nat) (r : Run)
    (o : Settled VideoMetadata Unit) :
    (resumeAfterGetVideoMetadata s i r o).1.runs = s.runs.set i { r with stage := Stage.done } := by
  unfold resumeAfterGetVideoMetadata
  cases o <;> cases r.hasAudio <;> rfl

theorem step_run_kept (s : State) (e : Event) (i : Nat) (r : Run) (h : s.runs[i]? = some r) :
    ∃ r1, (step s e).1.runs[i]? = some r1 ∧ r1.file = r.file ∧ r1.hasAudio = r.hasAudio := by
  by_cases he : e.isFileTask = false
  · have := step_fileState s e he
    simp only [fileState, Prod.mk.injEq] at this
    exact ⟨r, by rw [this.2.2.2]; exact h, rfl, rfl⟩
  · cases e with
    | fileChange f =>
      cases f with
      | none => exact ⟨r, h, rfl, rfl⟩
      | some f =>
        have hlt : i < s.runs.length := (List.getElem?_eq_some.mp h).1
        exact ⟨r, by simp [step, handleFileChange, List.getElem?_append_left hlt, h], rfl, rfl⟩
    | checkVideoAudioSettled j =>
      simp only [step]
      split
      · rename_i rj hj
        split
        · rw [resumeAfterCheckVideoAudio_runs]
          exact set_stage_kept _ _ _ _ _ _ h hj
        · exact ⟨r, h, rfl, rfl⟩
      · exact ⟨r, h, rfl, rfl⟩
    | getVideoMetadataSettled j =>
      simp only [step]
      split
      · rename_i rj hj
        split
        · rw [resumeAfterGetVideoMetadata_runs]
          exact set_stage_kept _ _ _ _ _ _ h hj
        · exact ⟨r, h, rfl, rfl⟩
      · exact ⟨r, h, rfl, rfl⟩
    | click => simp [Event.isFileTask] at he
    | loadedmetadata => simp [Event.isFileTask] at he
    | seeked t => simp [Event.isFileTask] at he
    | seek inst p => simp [Event.isFileTask] at he

theorem exec_run_kept (s : State) (es : List Event) (i : Nat) (r : Run)
    (h : s.runs[i]? = some r) :
    ∃ r1, (exec s es).runs[i]? = some r1 ∧ r1.file = r.file ∧ r1.hasAudio = r.hasAudio := by
  induction es generalizing s r with
  | nil => exact ⟨r, h, rfl, rfl⟩
  | cons e es ih =>
    obtain ⟨r1, h1, hf, ha⟩ := step_run_kept s e i r h
    obtain ⟨r2, h2, hf2, ha2⟩ := ih (step s e).1 r1 h1
    exact ⟨r2, h2, hf2.trans hf, ha2.trans ha⟩

theorem initializesWaveform_resume (s : State) (i : Nat) (r : Run)
    (o : Settled VideoMetadata Unit) :
    initializesWaveform (resumeAfterGetVideoMetadata s i r o).2 = r.hasAudio := by
  unfold resumeAfterGetVideoMetadata
  cases o <;> cases r.hasAudio <;> cases s.waveformRef <;>
    simp [initializesWaveform, initializeWaveform]

/-- C10: the continuation of `handleFileChange` that follows `getVideoMetadata`
calls `initializeWaveform` exactly when the `hasAudio` of the state in which the
file was picked is true, whatever happened after the pick; so a file without
audio gets a waveform when picked first, and a file with audio gets none when
picked after a file without audio. -/
theorem waveform_gate_reads_hasAudio_of_pick :
    (∀ (s0 : State) (f : File) (es : List Event) (r : Run),
      (exec s0 (Event.fileChange (some f) :: es)).runs[s0.runs.length]? = some r →
      r.stage = Stage.awaitingGetVideoMetadata →
      r.file = f ∧
      initializesWaveform
        (step (exec s0 (Event.fileChange (some f) :: es))
          (Event.getVideoMetadataSettled s0.runs.length)).2 = s0.hasAudio) ∧
    (probedAudio silentClip = false ∧
      (exec mounted [Event.fileChange (some silentClip),
        Event.checkVideoAudioSettled 0]).hasAudio = false ∧
      initializesWaveform
        (step (exec mounted [Event.fileChange (some silentClip), Event.checkVideoAudioSettled 0])
          (Event.getVideoMetadataSettled 0)).2 = true) ∧
    (probedAudio monoClip = true ∧
      (exec mounted [Event.fileChange (some silentClip), Event.checkVideoAudioSettled 0,
        Event.getVideoMetadataSettled 0, Event.fileChange (some monoClip),
        Event.checkVideoAudioSettled 1]).hasAudio = true ∧
      initializesWaveform
        (step (exec mounted [Event.fileChange (some silentClip), Event.checkVideoAudioSettled 0,
            Event.getVideoMetadataSettled 0, Event.fileChange (some monoClip),
            Event.checkVideoAudioSettled 1])
          (Event.getVideoMetadataSettled 1)).2 = false) := by
  refine ⟨?_, by decide, by decide⟩
  intro s0 f es r hr hs
  rw [exec_cons] at hr ⊢
  have h0 : (step s0 (Event.fileChange (some f))).1.runs[s0.runs.length]? =
      some { file := f, hasAudio := s0.hasAudio, stage := Stage.awaitingCheckVideoAudio } := by
    simp [step, handleFileChange]
  obtain ⟨r1, h1, hf, ha⟩ := exec_run_kept _ es _ _ h0
  rw [hr] at h1
  cases h1
  rw [step_getVideoMetadataSettled _ _ r hr hs, initializesWaveform_resume]
  exact ⟨hf, ha⟩

/-- C10, on the first pick of the mounted component: the silent clip is picked,
its probe resolves to false, and its waveform is nevertheless initialized. -/
theorem waveform_gate_reads_hasAudio_of_pick_witness :
    silentClip.decodeAudioData = DecodeResult.decoded 0 ∧
    initializesWaveform
      (step (exec mounted [Event.fileChange (some silentClip), Event.checkVideoAudioSettled 0])
        (Event.getVideoMetadataSettled mounted.runs.length)).2 = mounted.hasAudio :=
  ⟨rfl, (waveform_gate_reads_hasAudio_of_pick.1 mounted silentClip
    [Event.checkVideoAudioSettled 0]
    { file := silentClip, hasAudio := true, stage := Stage.awaitingGetVideoMetadata }
    (by decide) rfl).2⟩

/-! ## Overlapping picks -/

theorem step_fileStep (s : State) (e : Event) :
    fileState (step s e).1 = fileStep (fileState s) e := by
  by_cases he : e.isFileTask = false
  · rw [step_fileState s e he]
    cases e <;> first | rfl | simp [Event.isFileTask] at he
  · cases e with
    | fileChange f =>
      cases f with
      | none => rfl
      | some f => rfl
    | checkVideoAudioSettled i =>
      simp only [fileStep, fileState]
      cases hr : s.runs[i]? with
      | none => simp [step, hr]
      | some r =>
        cases ho : checkVideoAudio r.file with
        | none => cases hs : r.stage <;> simp [step, hr, ho, hs]
        | some o =>
          by_cases hs : r.stage = Stage.awaitingCheckVideoAudio
          · rw [step_checkVideoAudioSettled s i r o hr hs ho]
            have := resumeAfterCheckVideoAudio_fileState s i r o ho
            simp only [fileState] at this
            simp [this, hs, ho]
          · cases hs1 : r.stage <;> simp_all [step]
    | getVideoMetadataSettled i =>
      simp only [fileStep, fileState]
      cases hr : s.runs[i]? with
      | none => simp [step, hr]
      | some r =>
        by_cases hs : r.stage = Stage.awaitingGetVideoMetadata
        · rw [step_getVideoMetadataSettled s i r hr hs]
          have := resumeAfterGetVideoMetadata_fileState s i r
          simp only [fileState] at this
          simp [this, hs]
        · cases hs1 : r.stage <;> simp_all [step]
    | click => simp [Event.isFileTask] at he
    | loadedmetadata => simp [Event.isFileTask] at he
    | seeked t => simp [Event.isFileTask] at he
    | seek inst p => simp [Event.isFileTask] at he

theorem exec_fileStep (s : State) (es : List Event) :
    fileState (exec s es) = es.foldl fileStep (fileState s) := by
  induction es generalizing s with
  | nil => rfl
  | cons e es ih => rw [exec_cons, ih, step_fileStep, List.foldl_cons]

theorem checkVideoAudio_isSome (f : File) (hr : f.readable = true) :
    (checkVideoAudio f).isSome = true := by
  unfold checkVideoAudio
  rw [if_pos hr]
  cases f.decodeAudioData <;> rfl

theorem fileStep_probe_first (h u : Bool) (m : Option VideoMetadata) (l t : List Run)
    (x : Run) (hs : x.stage = Stage.awaitingCheckVideoAudio)
    (ho : (checkVideoAudio x.file).isSome = true) :
    fileStep (h, u, m, l ++ x :: t) (Event.checkVideoAudioSettled l.length) =
      (probedAudio x.file, probedAudio x.file, m,
        l ++ { x with stage := Stage.awaitingGetVideoMetadata } :: t) := by
  simp only [fileStep]
  rw [getElem?_append_length]
  simp [hs, ho]

theorem fileStep_probe_second (h u : Bool) (m : Option VideoMetadata) (l t : List Run)
    (x y : Run) (hs : y.stage = Stage.awaitingCheckVideoAudio)
    (ho : (checkVideoAudio y.file).isSome = true) :
    fileStep (h, u, m, l ++ x :: y :: t) (Event.checkVideoAudioSettled (l.length + 1)) =
      (probedAudio y.file, probedAudio y.file, m,
        l ++ x :: { y with stage := Stage.awaitingGetVideoMetadata } :: t) := by
  simp only [fileStep]
  rw [getElem?_append_length_succ]
  simp [hs, ho]

theorem fileStep_metadata_first (h u : Bool) (m : Option VideoMetadata) (l t : List Run)
    (x : Run) (hs : x.stage = Stage.awaitingGetVideoMetadata) :
    fileStep (h, u, m, l ++ x :: t) (Event.getVideoMetadataSettled l.length) =
      (h, u, extractedMetadata x.file, l ++ { x with stage := Stage.done } :: t) := by
  simp only [fileStep]
  rw [getElem?_append_length]
  simp [hs]

theorem fileStep_metadata_second (h u : Bool) (m : Option VideoMetadata) (l t : List Run)
    (x y : Run) (hs : y.stage = Stage.awaitingGetVideoMetadata) :
    fileStep (h, u, m, l ++ x :: y :: t) (Event.getVideoMetadataSettled (l.length + 1)) =
      (h, u, extractedMetadata y.file, l ++ x :: { y with stage := Stage.done } :: t) := by
  simp only [fileStep]
  rw [getElem?_append_length_succ]
  simp [hs]

theorem fileStep_pick (h u : Bool) (m : Option VideoMetadata) (l : List Run) (f : File) :
    fileStep (h, u, m, l) (Event.fileChange (some f)) =
      (h, u, m, l ++ [{ file := f, hasAudio := h, stage := Stage.awaitingCheckVideoAudio }]) :=
  rfl

/-- C8 (as the code behaves): when two readable files are picked with overlapping
invocations, in every order of the four settlements the final `hasAudio` and
`uploadEnabled` are the probe result of the file whose probe settled last, and
the final `videoMetadata` is the metadata of the file whose metadata settled
last; they are the values of the second file only when its settlements come
last. -/
theorem last_settlement_wins (s : State) (A B : File)
    (hA : A.readable = true) (hB : B.readable = true)
    (es : List Event) (hes : es ∈ overlappingPicks A B s.runs.length) :
    (exec s es).hasAudio =
      probedAudio (if lastProbe es = some s.runs.length then A else B) ∧
    (exec s es).uploadEnabled =
      probedAudio (if lastProbe es = some s.runs.length then A else B) ∧
    (exec s es).videoMetadata =
      extractedMetadata (if lastMetadata es = some s.runs.length then A else B) := by
  have key := exec_fileStep s es
  have hA1 := checkVideoAudio_isSome A hA
  have hB1 := checkVideoAudio_isSome B hB
  simp only [overlappingPicks, List.mem_cons, List.mem_singleton, List.not_mem_nil,
    or_false] at hes
  simp only [fileState, Prod.ext_iff] at key
  obtain ⟨k1, k2, k3, -⟩ := key
  rw [k1, k2, k3]
  rcases hes with rfl | rfl | rfl | rfl | rfl | rfl | rfl | rfl | rfl <;>
    simp [fileStep_pick, fileStep_probe_first, fileStep_probe_second,
      fileStep_metadata_first, fileStep_metadata_second, lastProbe, lastMetadata, hA1, hB1]

/-- C8, for the mono clip followed by the silent clip in the mounted component,
with the settlements of the silent clip last. -/
theorem last_settlement_wins_witness :
    [Event.fileChange (some monoClip), Event.fileChange (some silentClip),
        Event.checkVideoAudioSettled 0, Event.checkVideoAudioSettled 1,
        Event.getVideoMetadataSettled 0, Event.getVideoMetadataSettled 1] ∈
      overlappingPicks monoClip silentClip mounted.runs.length ∧
    (exec mounted [Event.fileChange (some monoClip), Event.fileChange (some silentClip),
        Event.checkVideoAudioSettled 0, Event.checkVideoAudioSettled 1,
        Event.getVideoMetadataSettled 0, Event.getVideoMetadataSettled 1]).hasAudio =
      probedAudio silentClip :=
  ⟨by decide,
   (last_settlement_wins mounted monoClip silentClip rfl rfl
      [Event.fileChange (some monoClip), Event.fileChange (some silentClip),
        Event.checkVideoAudioSettled 0, Event.checkVideoAudioSettled 1,
        Event.getVideoMetadataSettled 0, Event.getVideoMetadataSettled 1] (by decide)).1⟩

/-- C8 fails as stated: the mono clip is picked, then the silent clip before any
settlement; the settlements of the silent clip are delivered first and those of
the mono clip last.  The final `hasAudio`, `uploadEnabled` and `videoMetadata`
are those of the mono clip, not of the silent clip picked last. -/
theorem stale_settlement_overwrites :
    [Event.fileChange (some monoClip), Event.fileChange (some silentClip),
        Event.checkVideoAudioSettled 1, Event.getVideoMetadataSettled 1,
        Event.checkVideoAudioSettled 0, Event.getVideoMetadataSettled 0] ∈
      overlappingPicks monoClip silentClip mounted.runs.length ∧
    (exec mounted [Event.fileChange (some monoClip), Event.fileChange (some silentClip),
        Event.checkVideoAudioSettled 1, Event.getVideoMetadataSettled 1]).hasAudio = false ∧
    (exec mounted [Event.fileChange (some monoClip), Event.fileChange (some silentClip),
        Event.checkVideoAudioSettled 1, Event.getVideoMetadataSettled 1,
        Event.checkVideoAudioSettled 0, Event.getVideoMetadataSettled 0]).hasAudio = true ∧
    probedAudio silentClip = false ∧
    (exec mounted [Event.fileChange (some monoClip), Event.fileChange (some silentClip),
        Event.checkVideoAudioSettled 1, Event.getVideoMetadataSettled 1,
        Event.checkVideoAudioSettled 0, Event.getVideoMetadataSettled 0]).uploadEnabled = true ∧
    (exec mounted [Event.fileChange (some monoClip), Event.fileChange (some silentClip),
        Event.checkVideoAudioSettled 1, Event.getVideoMetadataSettled 1,
        Event.checkVideoAudioSettled 0, Event.getVideoMetadataSettled 0]).videoMetadata =
      some ⟨Num.finite 5, 640, 360⟩ ∧
    extractedMetadata silentClip = some ⟨Num.finite 10, 1280, 720⟩ := by
  decide

/-! ## Wiring of the seek handlers in the mounted component -/

theorem onSeeked_wiring (c : Option Nat) (s : State) : wiring (onSeeked c s).1 = wiring s := by
  cases c with
  | none => rfl
  | some inst =>
    simp only [onSeeked, wiring, Option.map_map, Prod.mk.injEq, true_and]
    cases s.waveformRef with
    | none => rfl
    | some w =>
      simp only [Option.map_some', Function.comp_apply, Option.some.injEq]
      split <;> rfl

theorem onSeek_wiring (p : ℚ) (s : State) : wiring (onSeek p s).1 = wiring s := by
  unfold onSeek
  split <;> rfl

theorem resumeAfterGetVideoMetadata_unwired (s : State) (i : Nat) (r : Run)
    (o : Settled VideoMetadata Unit) (h : unwired s = true) :
    unwired (resumeAfterGetVideoMetadata s i r o).1 = true := by
  unfold resumeAfterGetVideoMetadata
  cases o <;> cases r.hasAudio <;>
    simp_all [unwired, initializeWaveform, WaveSurfer.create]

theorem step_wiring (s : State) (e : Event) (h : unwired s = true) :
    unwired (step s e).1 = true := by
  have hw : ∀ s1 : State, wiring s1 = wiring s → unwired s1 = true := by
    intro s1 h1
    simp only [wiring, Prod.mk.injEq] at h1
    simp only [unwired, h1.1] at h ⊢
    cases hs : s.waveformRef <;> cases hs1 : s1.waveformRef <;>
      simp_all
  cases e with
  | fileChange f =>
    cases f with
    | none => exact h
    | some f => exact hw _ rfl
  | checkVideoAudioSettled i =>
    cases hr : s.runs[i]? with
    | none => simpa [step, hr] using h
    | some r =>
      cases ho : checkVideoAudio r.file with
      | none => cases hs : r.stage <;> simpa [step, hr, ho, hs] using h
      | some o =>
        by_cases hs : r.stage = Stage.awaitingCheckVideoAudio
        · rw [step_checkVideoAudioSettled s i r o hr hs ho]
          apply hw
          cases o <;> rfl
        · cases hs1 : r.stage <;> simp_all [step]
  | getVideoMetadataSettled i =>
    cases hr : s.runs[i]? with
    | none => simpa [step, hr] using h
    | some r =>
      by_cases hs : r.stage = Stage.awaitingGetVideoMetadata
      · rw [step_getVideoMetadataSettled s i r hr hs]
        exact resumeAfterGetVideoMetadata_unwired s i r _ h
      · cases hs1 : r.stage <;> simp_all [step]
  | click =>
    apply hw
    simp only [step, clickPlayPause, handlePlayPause]
    split
    · rfl
    · split <;> simp [wiring, Function.comp_def]
  | loadedmetadata =>
    apply hw
    simp only [step]
    split <;> rfl
  | seeked t =>
    apply hw
    simp only [step]
    rw [dispatch_frame wiring]
    · rfl
    · intro g hg s1
      obtain ⟨c, -, rfl⟩ := List.mem_map.mp hg
      exact onSeeked_wiring c s1
  | seek inst p =>
    apply hw
    simp only [step]
    split
    · rename_i w hw1
      split
      · rw [dispatch_frame wiring]
        · simp [wiring, hw1]
        · intro g hg s1
          obtain ⟨-, rfl⟩ := List.mem_replicate.mp hg
          exact onSeek_wiring p s1
      · rfl
    · rfl

theorem exec_unwired (es : List Event) : unwired (exec mounted es) = true := by
  have key : ∀ (es : List Event) (s : State), unwired s = true → unwired (exec s es) = true := by
    intro es
    induction es with
    | nil => intro s h; exact h
    | cons e es ih => intro s h; exact ih _ (step_wiring s e h)
  exact key es mounted rfl

theorem step_seek_unwired (s : State) (h : unwired s = true) (inst : Nat) (p : ℚ) :
    (step s (Event.seek inst p)).2 = [] ∧ (step s (Event.seek inst p)).1.video = s.video := by
  simp only [unwired, Bool.and_eq_true, beq_iff_eq] at h
  simp only [step]
  cases hw : s.waveformRef with
  | none => exact ⟨rfl, rfl⟩
  | some w =>
    rw [hw] at h
    simp only [beq_iff_eq] at h
    by_cases hi : w.id = inst
    · simp [hi, h.2, dispatch]
    · simp [hi]

/-- C5 fails on the code: the effect ran once, at mount, when `waveformRef.current`
was `null`, so no `seek` handler is ever registered on an instance that
`initializeWaveform` creates.  In every state reachable from the mounted
component a `seek` notification issues no command and leaves the video element
as it is; after the 5-second mono clip was picked and its waveform initialized,
a `seek` notification with fraction 1/2 leaves `currentTime` at 0 although the
handler of line 134 would compute 5/2. -/
theorem waveform_seek_never_reaches_video :
    (∀ (es : List Event) (inst : Nat) (p : ℚ),
      (step (exec mounted es) (Event.seek inst p)).2 = [] ∧
      (step (exec mounted es) (Event.seek inst p)).1.video = (exec mounted es).video) ∧
    playerWithWaveform.hasAudio = true ∧
    playerWithWaveform.waveformRef.map WaveSurfer.id = some 0 ∧
    playerWithWaveform.waveformRef.map WaveSurfer.seekHandlers = some 0 ∧
    playerWithWaveform.video.seekedListeners = [none] ∧
    playerWithWaveform.video.duration = Num.finite 5 ∧
    seekTime (1 / 2) playerWithWaveform.video.duration = Num.finite (5 / 2) ∧
    (step playerWithWaveform (Event.seek 0 (1 / 2))).1.video.currentTime = 0 ∧
    (step playerWithWaveform (Event.seek 0 (1 / 2))).2 = [] := by
  refine ⟨fun es inst p => step_seek_unwired _ (exec_unwired es) inst p,
    by decide, by decide, by decide, by decide, by decide, ?_, by decide, by decide⟩
  have h : playerWithWaveform.video.duration = Num.finite 5 := by decide
  rw [h]
  exact seekTime_half_five

/-! ## Chains of seek notifications -/

theorem cascade_succ (fuel : Nat) (s : State) (e : Event) (queue : List Event) :
    cascade (fuel + 1) s (e :: queue) =
      ((step s e).2 ++
          (cascade fuel (step s e).1 (queue ++ (step s e).2.filterMap notification)).1,
        (cascade fuel (step s e).1 (queue ++ (step s e).2.filterMap notification)).2) := rfl

theorem cascade_nil (fuel : Nat) (s : State) : cascade fuel s [] = ([], true) := by
  cases fuel <;> rfl

theorem cascade_of_no_command (fuel : Nat) (s : State) (e : Event) (h : (step s e).2 = []) :
    cascade (fuel + 1) s [e] = ([], true) := by
  rw [cascade_succ, h]
  simp [cascade_nil]

theorem step_seeked_unwired (s : State) (h : unwired s = true) (t : ℚ) :
    (step s (Event.seeked t)).2 = [] ∧
    (step s (Event.seeked t)).1.waveformRef = s.waveformRef := by
  simp only [unwired, Bool.and_eq_true, beq_iff_eq] at h
  simp [step, h.1, dispatch, onSeeked]

/-- C7 fails on the code: in every state reachable from the mounted component a
seek on either surface issues no update at all to the other surface, because
the `seeked` listener captured `null` and no `seek` handler is registered; the
chain of handler calls ends after the first task with no command.  After the
5-second mono clip was picked and its waveform initialized, a seek of the video
to 2.5 seconds leaves the waveform at 0 although line 130 would compute the
fraction 1/2, and a seek of the waveform to 1/2 issues nothing to the video. -/
theorem user_seek_updates_nothing :
    (∀ (es : List Event) (t : ℚ) (inst : Nat) (p : ℚ) (fuel : Nat),
      cascade (fuel + 1) (exec mounted es) [Event.seeked t] = ([], true) ∧
      cascade (fuel + 1) (exec mounted es) [Event.seek inst p] = ([], true)) ∧
    playerWithWaveform.waveformRef.map WaveSurfer.id = some 0 ∧
    playerWithWaveform.video.duration = Num.finite 5 ∧
    seekedFraction (5 / 2) playerWithWaveform.video.duration = Num.finite (1 / 2) ∧
    (step playerWithWaveform (Event.seeked (5 / 2))).2 = [] ∧
    (step playerWithWaveform (Event.seeked (5 / 2))).1.waveformRef.map WaveSurfer.progress =
      some (Num.finite 0) ∧
    (step playerWithWaveform (Event.seek 0 (1 / 2))).2 = [] ∧
    cascade 1 playerWithWaveform [Event.seeked (5 / 2)] = ([], true) ∧
    cascade 1 playerWithWaveform [Event.seek 0 (1 / 2)] = ([], true) := by
  have hu : unwired playerWithWaveform = true := exec_unwired _
  have hd : playerWithWaveform.video.duration = Num.finite 5 := by decide
  have h1 := step_seeked_unwired playerWithWaveform hu (5 / 2)
  have h2 := step_seek_unwired playerWithWaveform hu 0 (1 / 2)
  refine ⟨?_, by decide, hd, ?_, h1.1, ?_, h2.1,
    cascade_of_no_command 0 _ _ h1.1, cascade_of_no_command 0 _ _ h2.1⟩
  · intro es t inst p fuel
    exact ⟨cascade_of_no_command fuel _ _ (step_seeked_unwired _ (exec_unwired es) t).1,
      cascade_of_no_command fuel _ _ (step_seek_unwired _ (exec_unwired es) inst p).1⟩
  · rw [hd]
    exact seekedFraction_half
  · rw [h1.2]
    decide

end VideoPlayer
